import Mathlib

/-!
# Verification of the ai-inference-dam request store and dispatcher

Shallow embedding of the Go sources of the inference-request broker:

* `internal/storage/pebbledb/pebbledb.go` — the ordered-KV store
  (`PStore` below): request records under `req:{id}`, a secondary index
  `st:{ns}:{status}:{created_at:020d}:{id}`, and `count:{ns}:{status}`
  counters maintained by an additive merge operator.
* `internal/storage/sqlite/sqlite.go` + `schema.sql` — the relational store
  (`SqliteDb` below).
* `internal/dispatcher/dispatcher.go` — per-request processing
  (`processRequest`, `resolveEndpoint`, `cloneAndOverrideModel`).
* `internal/api/handler.go` — `recordToRequest` response shaping.

Modelling conventions:
* Go `time.Time` values are Unix nanoseconds (`Int`); `time.Time.Unix()` is
  floor division by 10^9, `time.Unix(sec, 0)` is multiplication by 10^9.
* JSON payload objects (`map[string]interface{}`) are association lists
  `Payload` with map lookup semantics; JSON marshal/unmarshal round-trips
  are the identity, as they are for the data the program stores.
* Pebble byte-ordered keys `st:{ns}:{status}:{ts:020d}:{id}` are modelled
  structurally (`StKey`); byte order over a fixed `(ns, status)` range
  coincides with the numeric/lexicographic order `stKeyLe` whenever
  `0 ≤ ts < 10^20` (the zero-padded width) and names are free of the `:`
  separator, which holds for all timestamps the program writes.
* A Pebble batch is applied as the sequential composition of its
  operations; the additive merge operator on a count key is addition.
-/

/-- Request status, from `pkg/types/request.go`. -/
inductive ReqStatus where
  | queued
  | processing
  | completed
  | failed
deriving DecidableEq, Repr

/-- The four statuses in the order the pebbledb store iterates them
(`DeleteNamespace` and `ListRequests` in `pebbledb.go`). -/
def statusList : List ReqStatus :=
  [ReqStatus.queued, ReqStatus.processing, ReqStatus.completed, ReqStatus.failed]

/-- Rank of a status in `statusList`. -/
def statusRank : ReqStatus → Nat
  | .queued => 0
  | .processing => 1
  | .completed => 2
  | .failed => 3

/-- A JSON leaf value inside a payload object.  The program treats payload
values opaquely except for writing the string-valued `"model"` key. -/
inductive JVal where
  | s (v : String)
  | n (v : Int)
deriving DecidableEq, Repr

/-- A JSON object payload (`map[string]interface{}`), as an association
list with map-lookup semantics. -/
abbrev Payload := List (String × JVal)

/-- `storage.RequestRecord` (`internal/storage/types.go`); also the stored
JSON document `requestData` of `pebbledb.go`, whose fields correspond
one-to-one with `UnixNano` timestamps. -/
structure RequestRecord where
  id : String
  nspace : String     -- the Go field `Namespace` (`namespace` is a Lean keyword)
  status : ReqStatus
  requestPayload : Payload
  passthroughHeaders : List (String × String)
  headerEndpoint : Option String
  headerAPIKey : Option String
  responsePayload : Option Payload
  error : Option String
  createdAt : Int
  dispatchedAt : Option Int
  completedAt : Option Int
deriving DecidableEq, Repr

/-- `storage.NamespaceRecord` (`internal/storage/types.go`). -/
structure NamespaceRecord where
  name : String
  description : String
  providerEndpoint : Option String
  providerAPIKey : Option String
  providerModel : Option String
  providerHeaders : List (String × String)
  createdAt : Int
  updatedAt : Int
deriving DecidableEq, Repr

/-- A secondary-index key `st:{ns}:{status}:{created_at:020d}:{id}`
(`stKey` in `pebbledb.go`), modelled structurally. -/
structure StKey where
  ns : String
  status : ReqStatus
  ts : Int
  id : String
deriving DecidableEq, Repr

/-- The index key written for a stored record. -/
def mkStKey (d : RequestRecord) : StKey :=
  ⟨d.nspace, d.status, d.createdAt, d.id⟩

/-- Association-list lookup, mirroring a point read of the KV store. -/
def alookup {α : Type} (l : List (String × α)) (k : String) : Option α :=
  match l.find? (fun kv => kv.1 = k) with
  | some kv => some kv.2
  | none => none

/-- Map lookup on a payload (first binding wins; well-formed payloads
have unique keys). -/
def Payload.getVal (p : Payload) (k : String) : Option JVal :=
  alookup p k

/-- Association-list write: `Set` semantics of the KV store (overwrite the
existing binding, or add one). -/
def aset {α : Type} (l : List (String × α)) (k : String) (v : α) : List (String × α) :=
  match l with
  | [] => [(k, v)]
  | kv :: rest => if kv.1 = k then (k, v) :: rest else kv :: aset rest k v

/-- Association-list delete: `Delete` semantics of the KV store. -/
def adel {α : Type} (l : List (String × α)) (k : String) : List (String × α) :=
  l.filter (fun kv => ¬ kv.1 = k)

/-- The store state of the pebbledb layout (`PebbleStore` contents): the
`ns:` keyspace, the `req:` keyspace, the `st:` index keyspace (empty
values, so a set of keys) and the `count:` keyspace. -/
structure PStore where
  namespaces : List (String × NamespaceRecord)
  reqs : List (String × RequestRecord)
  stIndex : List StKey
  counts : List ((String × ReqStatus) × Int)
deriving DecidableEq, Repr

/-- The empty store. -/
def PStore.empty : PStore := ⟨[], [], [], []⟩

/-- Insert an index key (`Set` on an `st:` key: idempotent presence). -/
def stInsert (idx : List StKey) (k : StKey) : List StKey :=
  if k ∈ idx then idx else idx ++ [k]

/-- Delete an index key. -/
def stDelete (idx : List StKey) (k : StKey) : List StKey :=
  idx.filter (fun k2 => ¬ k2 = k)

/-- Read of `count:{ns}:{status}` (`getCount` in `pebbledb.go`): a missing
key reads as `0`. -/
def getCount (counts : List ((String × ReqStatus) × Int)) (ns : String) (st : ReqStatus) : Int :=
  match counts.find? (fun kv => kv.1 = (ns, st)) with
  | some kv => kv.2
  | none => 0

/-- `Merge` with the additive `int64_add` operator on a count key. -/
def mergeAdd (counts : List ((String × ReqStatus) × Int)) (ns : String) (st : ReqStatus)
    (delta : Int) : List ((String × ReqStatus) × Int) :=
  match counts with
  | [] => [((ns, st), delta)]
  | kv :: rest =>
    if kv.1 = (ns, st) then (kv.1, kv.2 + delta) :: rest
    else kv :: mergeAdd rest ns st delta

/-- Delete of a count key. -/
def countDelete (counts : List ((String × ReqStatus) × Int)) (ns : String) (st : ReqStatus) :
    List ((String × ReqStatus) × Int) :=
  counts.filter (fun kv => ¬ kv.1 = (ns, st))

/-- The `requestData` document `CreateRequest` marshals: it copies id,
namespace, status, payload, headers and `created_at` only, so response,
error, `dispatched_at` and `completed_at` are stored unset. -/
def createData (r : RequestRecord) : RequestRecord :=
  { r with responsePayload := none, error := none, dispatchedAt := none, completedAt := none }

/-- `PebbleStore.CreateRequest` (direct, non-batched path): one batch that
sets `req:{id}`, sets the status-index key, and merges `+1` into the
`(namespace, status)` counter.  No duplicate-id check is performed. -/
def createRequest (s : PStore) (r : RequestRecord) : PStore :=
  { s with
    reqs := aset s.reqs r.id (createData r)
    stIndex := stInsert s.stIndex (mkStKey (createData r))
    counts := mergeAdd s.counts r.nspace r.status 1 }

/-- `PebbleStore.getRequestData` / `GetRequest`: point read of `req:{id}`
(`toRequestRecord` is the identity on the modelled fields). -/
def getRequest (s : PStore) (id : String) : Option RequestRecord :=
  alookup s.reqs id

/-- `PebbleStore.UpdateRequestStatus`: reads the record (NotFound error if
missing), unconditionally sets the status and `dispatched_at`, moves
the index entry, and adjusts the two counters with `-1`/`+1` merges. -/
def updateRequestStatus (s : PStore) (id : String) (status : ReqStatus)
    (dispatchedAt : Int) : Except String Unit × PStore :=
  match alookup s.reqs id with
  | none => (Except.error ("request not found: " ++ id), s)
  | some d =>
    let d2 : RequestRecord := { d with status := status, dispatchedAt := some dispatchedAt }
    (Except.ok (),
      { s with
        reqs := aset s.reqs id d2
        stIndex := stInsert (stDelete s.stIndex ⟨d.nspace, d.status, d.createdAt, id⟩)
          ⟨d.nspace, status, d.createdAt, id⟩
        counts := mergeAdd (mergeAdd s.counts d.nspace d.status (-1)) d.nspace status 1 })

/-- `PebbleStore.UpdateRequestResponse`: sets `status=completed`,
`response_payload`, `completed_at := now`, and updates index/counters. -/
def updateRequestResponse (s : PStore) (id : String) (response : Payload)
    (now : Int) : Except String Unit × PStore :=
  match alookup s.reqs id with
  | none => (Except.error ("request not found: " ++ id), s)
  | some d =>
    let d2 : RequestRecord :=
      { d with status := .completed, responsePayload := some response, completedAt := some now }
    (Except.ok (),
      { s with
        reqs := aset s.reqs id d2
        stIndex := stInsert (stDelete s.stIndex ⟨d.nspace, d.status, d.createdAt, id⟩)
          ⟨d.nspace, .completed, d.createdAt, id⟩
        counts := mergeAdd (mergeAdd s.counts d.nspace d.status (-1)) d.nspace .completed 1 })

/-- `PebbleStore.UpdateRequestError`: sets `status=failed`, the error
message, `completed_at := now`, and updates index/counters. -/
def updateRequestError (s : PStore) (id : String) (errMsg : String)
    (now : Int) : Except String Unit × PStore :=
  match alookup s.reqs id with
  | none => (Except.error ("request not found: " ++ id), s)
  | some d =>
    let d2 : RequestRecord :=
      { d with status := .failed, error := some errMsg, completedAt := some now }
    (Except.ok (),
      { s with
        reqs := aset s.reqs id d2
        stIndex := stInsert (stDelete s.stIndex ⟨d.nspace, d.status, d.createdAt, id⟩)
          ⟨d.nspace, .failed, d.createdAt, id⟩
        counts := mergeAdd (mergeAdd s.counts d.nspace d.status (-1)) d.nspace .failed 1 })

/-- `types.NamespaceStats`. -/
structure NamespaceStats where
  totalRequests : Int
  queued : Int
  processing : Int
  completed : Int
  failed : Int
deriving DecidableEq, Repr

/-- `PebbleStore.GetNamespaceStats`: pure counter reads. -/
def getNamespaceStats (s : PStore) (name : String) : NamespaceStats :=
  let q := getCount s.counts name .queued
  let p := getCount s.counts name .processing
  let c := getCount s.counts name .completed
  let f := getCount s.counts name .failed
  ⟨q + p + c + f, q, p, c, f⟩

/-- Byte order of two index keys within one `st:{ns}:{status}:` range:
compare the zero-padded timestamp, then the id (see the key layout note in
the file header). -/
def stKeyLe (k1 k2 : StKey) : Prop :=
  k1.ts < k2.ts ∨ (k1.ts = k2.ts ∧ k1.id ≤ k2.id)

instance (k1 k2 : StKey) : Decidable (stKeyLe k1 k2) := by
  unfold stKeyLe
  infer_instance

/-- Insert into a `stKeyLe`-sorted list. -/
def insertKey (x : StKey) : List StKey → List StKey
  | [] => [x]
  | y :: ys => if stKeyLe x y then x :: y :: ys else y :: insertKey x ys

/-- Insertion sort by `stKeyLe`; the ascending key order in which a Pebble
iterator visits a `st:{ns}:{status}:` range (the index is a set, so any
sort of it enumerates the range in iterator order). -/
def sortKeys : List StKey → List StKey
  | [] => []
  | x :: xs => insertKey x (sortKeys xs)

/-- The keys a `NewIter` scan over `stPrefix ns status` visits, in order. -/
def scanKeys (idx : List StKey) (ns : String) (st : ReqStatus) : List StKey :=
  sortKeys (idx.filter (fun k => k.ns = ns ∧ k.status = st))

/-- `bytes.Compare(iter.Key(), cursorKey) <= 0` where
`cursorKey = stKey(ns, status, cursor, "")`: true iff the entry's padded
timestamp is below the cursor's, or equal with an empty id. -/
def keyAtOrBeforeCursor (k : StKey) (cursorTs : Int) : Bool :=
  k.ts < cursorTs ∨ (k.ts = cursorTs ∧ k.id = "")

/-- `storage.RequestFilter`. -/
structure RequestFilter where
  nspace : Option String
  status : Option ReqStatus
  limit : Int
  cursor : Option Int
deriving DecidableEq, Repr

/-- `cursorKey != nil && bytes.Compare(iter.Key(), cursorKey) <= 0`. -/
def skipByCursor (cursor : Option Int) (k : StKey) : Bool :=
  match cursor with
  | some c => keyAtOrBeforeCursor k c
  | none => false

/-- One iteration step of the `ListRequests` scan loop body, folded over
the visited keys: always count `total`; skip entries at or before the
cursor; below the limit, extract the id (last `:`-separated component,
empty only for an empty id field) and append the record if present. -/
def listScan (s : PStore) (cursor : Option Int) (limit : Int) :
    List StKey → List RequestRecord × Nat → List RequestRecord × Nat
  | [], acc => acc
  | k :: ks, (recs, total) =>
    let total := total + 1
    if skipByCursor cursor k then
      listScan s cursor limit ks (recs, total)
    else if (recs.length : Int) < limit then
      if k.id = "" then listScan s cursor limit ks (recs, total)
      else
        match alookup s.reqs k.id with
        | some d => listScan s cursor limit ks (recs ++ [d], total)
        | none => listScan s cursor limit ks (recs, total)
    else listScan s cursor limit ks (recs, total)

/-- `PebbleStore.ListRequests`: namespace required; default limit 100; one
scan per status (all four, in `statusList` order, unless filtered). -/
def listRequests (s : PStore) (f : RequestFilter) :
    Except String (List RequestRecord × Nat) :=
  match f.nspace with
  | none => Except.error "namespace is required"
  | some ns =>
    let limit := if f.limit = 0 then 100 else f.limit
    let statuses := match f.status with
      | some st => [st]
      | none => statusList
    Except.ok (statuses.foldl
      (fun acc st => listScan s f.cursor limit (scanKeys s.stIndex ns st) acc)
      ([], 0))

/-- `PebbleStore.GetQueuedRequests`: scan of the `queued` range, appending
each present record (ids extracted as in `ListRequests`). -/
def getQueuedRequests (s : PStore) (ns : String) : List RequestRecord :=
  (scanKeys s.stIndex ns .queued).foldl
    (fun recs k =>
      if k.id = "" then recs
      else match alookup s.reqs k.id with
        | some d => recs ++ [d]
        | none => recs)
    []

/-- `PebbleStore.DeleteNamespace`: for each status range, delete the
record and index key of every entry with a non-empty extracted id and
count it; delete the four count keys and the namespace key; all in one
batch (key sets are disjoint, so sequential application is the batch). -/
def deleteNamespace (s : PStore) (name : String) : PStore × Nat :=
  let keys := (statusList.map (fun st => scanKeys s.stIndex name st)).flatten
  let delKeys := keys.filter (fun k => ¬ k.id = "")
  let s2 : PStore :=
    { namespaces := adel s.namespaces name
      reqs := delKeys.foldl (fun l k => adel l k.id) s.reqs
      stIndex := delKeys.foldl (fun idx k => stDelete idx k) s.stIndex
      counts := statusList.foldl (fun c st => countDelete c name st) s.counts }
  (s2, delKeys.length)

/-- A row of the `requests` table (`schema.sql`): JSON text columns carry
the values they encode; `created_at`/`completed_at` are Unix seconds
(`sqlite.go` stores `CreatedAt.Unix()`); there is no `dispatched_at`
column. -/
structure SqlRequestRow where
  id : String
  nspace : String
  status : ReqStatus
  requestPayload : Payload
  passthroughHeaders : Option (List (String × String))
  headerEndpoint : Option String
  headerAPIKey : Option String
  responsePayload : Option Payload
  error : Option String
  createdAt : Int
  completedAt : Option Int
deriving DecidableEq, Repr

/-- The `requests` table, keyed by the `id` primary key. -/
abbrev SqliteDb := List (String × SqlRequestRow)

/-- `SQLiteStore.CreateRequest`: an INSERT that fails on a duplicate
primary key; `created_at` is `req.CreatedAt.Unix()` (whole seconds,
floor of the nanosecond instant); `passthrough_headers` is NULL unless
non-empty. -/
def sqliteCreateRequest (db : SqliteDb) (r : RequestRecord) : Except String Unit × SqliteDb :=
  match alookup db r.id with
  | some _ => (Except.error "UNIQUE constraint failed: requests.id", db)
  | none =>
    (Except.ok (), db ++ [(r.id,
      { id := r.id
        nspace := r.nspace
        status := r.status
        requestPayload := r.requestPayload
        passthroughHeaders :=
          if r.passthroughHeaders.isEmpty then none else some r.passthroughHeaders
        headerEndpoint := r.headerEndpoint
        headerAPIKey := r.headerAPIKey
        responsePayload := none
        error := none
        createdAt := r.createdAt.fdiv 1000000000
        completedAt := none })])

/-- `sqlcRequestToRecord`: `time.Unix(sec, 0)` re-expands seconds to an
instant; the record never carries `dispatched_at` (no such column). -/
def sqlRowToRecord (row : SqlRequestRow) : RequestRecord :=
  { id := row.id
    nspace := row.nspace
    status := row.status
    requestPayload := row.requestPayload
    passthroughHeaders := row.passthroughHeaders.getD []
    headerEndpoint := row.headerEndpoint
    headerAPIKey := row.headerAPIKey
    responsePayload := row.responsePayload
    error := row.error
    createdAt := row.createdAt * 1000000000
    dispatchedAt := none
    completedAt := row.completedAt.map (fun t => t * 1000000000) }

/-- `SQLiteStore.GetRequest`: point SELECT by id; no row is `nil`, not an
error. -/
def sqliteGetRequest (db : SqliteDb) (id : String) : Option RequestRecord :=
  (alookup db id).map sqlRowToRecord

/-- `SQLiteStore.UpdateRequestStatus` (`sqlite.go`):
`UPDATE requests SET status = ? WHERE id = ?` — it matches zero or one
row and returns success either way; no NotFound check is made. -/
def sqliteUpdateRequestStatus (db : SqliteDb) (id : String) (st : ReqStatus) :
    Except String Unit × SqliteDb :=
  (Except.ok (),
    db.map (fun kv => if kv.1 = id then (kv.1, { kv.2 with status := st }) else kv))

/-- `dispatcher.resolveEndpoint`: namespace value if set (even if set to
the empty string), else the request header value, else empty. -/
def resolveEndpoint (ns : NamespaceRecord) (headerValue : Option String) : String :=
  match ns.providerEndpoint with
  | some e => e
  | none =>
    match headerValue with
    | some v => v
    | none => ""

/-- `dispatcher.resolveAPIKey`, analogous. -/
def resolveAPIKey (ns : NamespaceRecord) (headerValue : Option String) : String :=
  match ns.providerAPIKey with
  | some k => k
  | none =>
    match headerValue with
    | some v => v
    | none => ""

/-- `dispatcher.mergeHeaders`: start from the passthrough headers, then
override with the namespace's provider headers. -/
def mergeHeaders (ns : NamespaceRecord) (passthroughHeaders : List (String × String)) :
    List (String × String) :=
  ns.providerHeaders.foldl (fun m kv => aset m kv.1 kv.2) passthroughHeaders

/-- `dispatcher.cloneAndOverrideModel`: copy every entry of the payload,
then write the `"model"` key. -/
def cloneAndOverrideModel (payload : Payload) (model : String) : Payload :=
  aset payload "model" (JVal.s model)

/-- Outcome of `Dispatcher.processRequest` on one request: the store after
the call, whether `ProviderClient.SendRequest` was invoked, and if so
with which payload and headers. -/
structure ProcResult where
  store : PStore
  providerCalled : Bool
  sentPayload : Option Payload
  sentHeaders : Option (List (String × String))
deriving DecidableEq, Repr

/-- `Dispatcher.processRequest` over the pebbledb store.  `now` stands for
the wall clock during the call and `providerResult` for the outcome the
provider call would have (it is consulted only when the call happens).
Failures of the terminal store writes are logged only, so the returned
store is the state those writes produce. -/
def processRequest (s : PStore) (ns : NamespaceRecord) (req : RequestRecord)
    (now : Int) (providerResult : Except String Payload) : ProcResult :=
  let endpoint := resolveEndpoint ns req.headerEndpoint
  let apiKey := resolveAPIKey ns req.headerAPIKey
  if endpoint = "" then
    { store := (updateRequestError s req.id "Missing required configuration: API endpoint" now).2
      providerCalled := false, sentPayload := none, sentHeaders := none }
  else if apiKey = "" then
    { store := (updateRequestError s req.id "Missing required configuration: API key" now).2
      providerCalled := false, sentPayload := none, sentHeaders := none }
  else
    match updateRequestStatus s req.id .processing now with
    | (Except.error _, s2) =>
      { store := s2, providerCalled := false, sentPayload := none, sentHeaders := none }
    | (Except.ok _, s2) =>
      let headers := mergeHeaders ns req.passthroughHeaders
      let payload := match ns.providerModel with
        | some m => cloneAndOverrideModel req.requestPayload m
        | none => req.requestPayload
      match providerResult with
      | Except.error e =>
        { store := (updateRequestError s2 req.id ("Provider request failed: " ++ e) now).2
          providerCalled := true, sentPayload := some payload, sentHeaders := some headers }
      | Except.ok resp =>
        { store := (updateRequestResponse s2 req.id resp now).2
          providerCalled := true, sentPayload := some payload, sentHeaders := some headers }

/-- `types.Request` (`pkg/types/request.go`): the wire shape of a request;
optional fields carry `omitempty`. -/
structure ApiRequest where
  id : String
  nspace : String
  status : ReqStatus
  request : Option Payload
  response : Option Payload
  error : Option String
  createdAt : String
  dispatchedAt : Option String
  completedAt : Option String
deriving DecidableEq, Repr

/-- The keys of the JSON object `encoding/json` produces for a
`types.Request` value, in struct-field order; an `omitempty` field is
present iff it is set (`nil` maps, `nil` pointers and `""` are omitted,
and the program never stores an empty string in these options). -/
def requestJsonKeys (r : ApiRequest) : List String :=
  ["id", "namespace", "status"]
    ++ (if r.request.isSome then ["request"] else [])
    ++ (if r.response.isSome then ["response"] else [])
    ++ (if r.error.isSome then ["error"] else [])
    ++ ["created_at"]
    ++ (if r.dispatchedAt.isSome then ["dispatched_at"] else [])
    ++ (if r.completedAt.isSome then ["completed_at"] else [])

/-- `recordToRequest` from `internal/api/handler.go` (the converter the
`GET /requests` and `GET /requests/{id}` handlers use): only id,
namespace, status, created_at and — when set — completed_at, response
and error are copied.  `fmt` abstracts `time.Time.Format(time.RFC3339)`
over our instant representation. -/
def recordToRequest (fmt : Int → String) (record : RequestRecord) : ApiRequest :=
  { id := record.id
    nspace := record.nspace
    status := record.status
    request := none
    response := record.responsePayload
    error := record.error
    createdAt := fmt record.createdAt
    dispatchedAt := none
    completedAt := record.completedAt.map fmt }

/-! ## Basic lemmas about the keyspace primitives -/

theorem alookup_cons {α : Type} (kv : String × α) (l : List (String × α)) (k : String) :
    alookup (kv :: l) k = if kv.1 = k then some kv.2 else alookup l k := by
  by_cases h : kv.1 = k <;> simp [alookup, List.find?, h]

theorem alookup_aset_self {α : Type} (l : List (String × α)) (k : String) (v : α) :
    alookup (aset l k v) k = some v := by
  induction l with
  | nil => simp [aset, alookup, List.find?]
  | cons kv rest ih =>
    by_cases h : kv.1 = k
    · simp [aset, h, alookup, List.find?]
    · simp [aset, h, alookup_cons, ih]

theorem alookup_aset_ne {α : Type} (l : List (String × α)) (k k2 : String) (v : α)
    (h : k2 ≠ k) : alookup (aset l k v) k2 = alookup l k2 := by
  have hne : k ≠ k2 := fun hh => h hh.symm
  induction l with
  | nil => simp [aset, alookup, List.find?, hne]
  | cons kv rest ih =>
    by_cases hk : kv.1 = k
    · simp only [aset, hk, if_true]
      rw [alookup_cons, alookup_cons]
      simp [hk, hne]
    · simp only [aset, hk, if_false]
      rw [alookup_cons, alookup_cons, ih]

theorem aset_of_alookup_none {α : Type} (l : List (String × α)) (k : String) (v : α)
    (h : alookup l k = none) : aset l k v = l ++ [(k, v)] := by
  induction l with
  | nil => simp [aset]
  | cons kv rest ih =>
    rw [alookup_cons] at h
    by_cases hk : kv.1 = k
    · simp [hk] at h
    · simp [aset, hk]
      exact ih (by simpa [hk] using h)

theorem alookup_append_left {α : Type} (l1 l2 : List (String × α)) (k : String)
    (h : alookup l1 k = none) : alookup (l1 ++ l2) k = alookup l2 k := by
  induction l1 with
  | nil => simp
  | cons kv rest ih =>
    rw [alookup_cons] at h
    by_cases hk : kv.1 = k
    · simp [hk] at h
    · rw [List.cons_append, alookup_cons]
      simp only [hk, if_false]
      exact ih (by simpa [hk] using h)

theorem getCount_cons (kv : (String × ReqStatus) × Int) (rest : List ((String × ReqStatus) × Int))
    (ns : String) (st : ReqStatus) :
    getCount (kv :: rest) ns st = if kv.1 = (ns, st) then kv.2 else getCount rest ns st := by
  by_cases h : kv.1 = (ns, st) <;> simp [getCount, List.find?, h]

theorem getCount_mergeAdd_self (c : List ((String × ReqStatus) × Int)) (ns : String)
    (st : ReqStatus) (d : Int) :
    getCount (mergeAdd c ns st d) ns st = getCount c ns st + d := by
  induction c with
  | nil => simp [mergeAdd, getCount, List.find?]
  | cons kv rest ih =>
    by_cases h : kv.1 = (ns, st)
    · simp [mergeAdd, h, getCount_cons]
    · simp [mergeAdd, h, getCount_cons, ih]

theorem getCount_mergeAdd_ne (c : List ((String × ReqStatus) × Int)) (ns ns2 : String)
    (st st2 : ReqStatus) (d : Int) (h : (ns2, st2) ≠ (ns, st)) :
    getCount (mergeAdd c ns st d) ns2 st2 = getCount c ns2 st2 := by
  have hne : (ns, st) ≠ (ns2, st2) := fun hh => h hh.symm
  induction c with
  | nil => simp [mergeAdd, getCount_cons, hne, getCount]
  | cons kv rest ih =>
    by_cases hk : kv.1 = (ns, st)
    · simp [mergeAdd, hk, getCount_cons, hne]
    · simp [mergeAdd, hk, getCount_cons, ih]

theorem getCount_countDelete_self (c : List ((String × ReqStatus) × Int)) (ns : String)
    (st : ReqStatus) : getCount (countDelete c ns st) ns st = 0 := by
  induction c with
  | nil => simp [countDelete, getCount, List.find?]
  | cons kv rest ih =>
    by_cases h : kv.1 = (ns, st)
    · simpa [countDelete, List.filter_cons, h] using ih
    · simpa [countDelete, List.filter_cons, h, getCount_cons] using ih

theorem getCount_countDelete_ne (c : List ((String × ReqStatus) × Int)) (ns ns2 : String)
    (st st2 : ReqStatus) (h : (ns2, st2) ≠ (ns, st)) :
    getCount (countDelete c ns st) ns2 st2 = getCount c ns2 st2 := by
  induction c with
  | nil => simp [countDelete]
  | cons kv rest ih =>
    by_cases hk : kv.1 = (ns, st)
    · have hk2 : ¬ kv.1 = (ns2, st2) := by rw [hk]; exact fun hh => h hh.symm
      rw [show countDelete (kv :: rest) ns st = countDelete rest ns st by
        simp [countDelete, List.filter_cons, hk]]
      rw [getCount_cons]
      simp only [hk2, if_false]
      exact ih
    · rw [show countDelete (kv :: rest) ns st = kv :: countDelete rest ns st by
        simp [countDelete, List.filter_cons, hk]]
      rw [getCount_cons, getCount_cons]
      by_cases hk2 : kv.1 = (ns2, st2) <;> simp [hk2, ih]

/-! ## The store invariant relating records, index and counters -/

/-- `1` when the record belongs to the `(ns, st)` bucket, else `0`. -/
def statusInd (d : RequestRecord) (ns : String) (st : ReqStatus) : Int :=
  if d.nspace = ns ∧ d.status = st then 1 else 0

/-- The number of stored request records in a `(namespace, status)`
bucket — the quantity the `count:` keys are meant to track. -/
def countRecords (reqs : List (String × RequestRecord)) (ns : String) (st : ReqStatus) : Int :=
  ((reqs.filter (fun p => p.2.nspace = ns ∧ p.2.status = st)).length : Int)

theorem countRecords_nil (ns : String) (st : ReqStatus) : countRecords [] ns st = 0 := rfl

theorem countRecords_cons (p : String × RequestRecord) (l : List (String × RequestRecord))
    (ns : String) (st : ReqStatus) :
    countRecords (p :: l) ns st = statusInd p.2 ns st + countRecords l ns st := by
  by_cases h : p.2.nspace = ns ∧ p.2.status = st <;>
    simp [countRecords, statusInd, List.filter_cons, h] <;> omega

theorem countRecords_append (l1 l2 : List (String × RequestRecord))
    (ns : String) (st : ReqStatus) :
    countRecords (l1 ++ l2) ns st = countRecords l1 ns st + countRecords l2 ns st := by
  simp [countRecords, List.filter_append]

theorem countRecords_aset_found (l : List (String × RequestRecord)) (id : String)
    (d d2 : RequestRecord) (ns : String) (st : ReqStatus) (h : alookup l id = some d) :
    countRecords (aset l id d2) ns st
      = countRecords l ns st - statusInd d ns st + statusInd d2 ns st := by
  induction l with
  | nil => simp [alookup, List.find?] at h
  | cons kv rest ih =>
    rw [alookup_cons] at h
    by_cases hk : kv.1 = id
    · simp only [hk, if_true, Option.some.injEq] at h
      subst h
      simp only [aset, hk, if_true]
      rw [countRecords_cons, countRecords_cons]
      ring
    · simp only [hk, if_false] at h
      simp only [aset, hk, if_false]
      rw [countRecords_cons, countRecords_cons, ih h]
      ring

/-- Well-formedness of a pebbledb store state: record ids are unique and
non-empty, each record key holds the record with that id, the status
index is exactly the set of keys of the stored records, and every
counter equals the size of its bucket. -/
structure WF (s : PStore) : Prop where
  nodupIds : (s.reqs.map Prod.fst).Nodup
  idMatch : ∀ p ∈ s.reqs, p.2.id = p.1 ∧ ¬ p.1 = ""
  nodupIdx : s.stIndex.Nodup
  idxSound : ∀ k ∈ s.stIndex, ∀ d, alookup s.reqs k.id = some d → k = mkStKey d
  idxSome : ∀ k ∈ s.stIndex, (alookup s.reqs k.id).isSome
  idxComplete : ∀ p ∈ s.reqs, mkStKey p.2 ∈ s.stIndex
  countsOk : ∀ ns st, getCount s.counts ns st = countRecords s.reqs ns st

/-- Decidable check of the counter part of `WF` (the quantifier over all
`(ns, st)` pairs reduces to the pairs occurring in the state). -/
def checkCounts (s : PStore) : Bool :=
  s.counts.all (fun kv => getCount s.counts kv.1.1 kv.1.2 = countRecords s.reqs kv.1.1 kv.1.2) &&
  s.reqs.all (fun p => getCount s.counts p.2.nspace p.2.status
    = countRecords s.reqs p.2.nspace p.2.status)

/-- Decidable check of `WF`. -/
def checkWF (s : PStore) : Bool :=
  decide ((s.reqs.map Prod.fst).Nodup) &&
  s.reqs.all (fun p => p.2.id = p.1 ∧ ¬ p.1 = "") &&
  decide (s.stIndex.Nodup) &&
  (s.stIndex.all (fun k =>
    match alookup s.reqs k.id with
    | some d => k = mkStKey d
    | none => false)) &&
  s.reqs.all (fun p => mkStKey p.2 ∈ s.stIndex) &&
  checkCounts s

theorem countsOk_of_check (s : PStore) (h : checkCounts s = true) (ns : String)
    (st : ReqStatus) : getCount s.counts ns st = countRecords s.reqs ns st := by
  rw [checkCounts, Bool.and_eq_true] at h
  obtain ⟨hc, hr⟩ := h
  rw [List.all_eq_true] at hc hr
  cases hfind : s.counts.find? (fun kv => kv.1 = (ns, st)) with
  | some kv =>
    have hmem := List.mem_of_find?_eq_some hfind
    have hkey : kv.1 = (ns, st) := by
      have := List.find?_some hfind
      simpa using this
    have := hc kv hmem
    rw [hkey] at this
    simpa using this
  | none =>
    have hzero : getCount s.counts ns st = 0 := by simp [getCount, hfind]
    cases hflt : s.reqs.filter (fun p => p.2.nspace = ns ∧ p.2.status = st) with
    | nil =>
      rw [hzero]
      unfold countRecords
      rw [hflt]
      simp
    | cons p rest =>
      have hp : p ∈ s.reqs.filter (fun q => q.2.nspace = ns ∧ q.2.status = st) := by
        rw [hflt]; exact List.mem_cons_self p rest
      rw [List.mem_filter] at hp
      obtain ⟨hpmem, hcond⟩ := hp
      have hns : p.2.nspace = ns ∧ p.2.status = st := by simpa using hcond
      have := hr p hpmem
      rw [hns.1, hns.2] at this
      simpa using this

theorem WF_of_check (s : PStore) (h : checkWF s = true) : WF s := by
  rw [checkWF] at h
  simp only [Bool.and_eq_true] at h
  obtain ⟨⟨⟨⟨⟨h1, h2⟩, h3⟩, h4⟩, h5⟩, h6⟩ := h
  rw [List.all_eq_true] at h2 h4 h5
  refine ⟨by simpa using h1, ?_, by simpa using h3, ?_, ?_, ?_, countsOk_of_check s h6⟩
  · intro p hp
    simpa using h2 p hp
  · intro k hk d hd
    have := h4 k hk
    rw [hd] at this
    simpa using this
  · intro k hk
    have := h4 k hk
    cases hd : alookup s.reqs k.id with
    | some d => simp
    | none => rw [hd] at this; simp at this
  · intro p hp
    simpa using h5 p hp

theorem alookup_eq_none_iff {α : Type} (l : List (String × α)) (k : String) :
    alookup l k = none ↔ k ∉ l.map Prod.fst := by
  induction l with
  | nil => simp [alookup, List.find?]
  | cons kv rest ih =>
    rw [alookup_cons, List.map_cons]
    by_cases h : kv.1 = k
    · simp [h]
    · simp only [h, if_false, ih, List.mem_cons]
      have hne : ¬ k = kv.1 := fun hh => h hh.symm
      tauto

theorem mem_of_alookup_some {α : Type} (l : List (String × α)) (k : String) (v : α)
    (h : alookup l k = some v) : (k, v) ∈ l := by
  induction l with
  | nil => simp [alookup, List.find?] at h
  | cons kv rest ih =>
    rw [alookup_cons] at h
    by_cases hk : kv.1 = k
    · simp only [hk, if_true, Option.some.injEq] at h
      have hkv : kv = (k, v) := by
        cases kv
        simp only at hk h
        rw [hk, h]
      rw [← hkv]
      exact List.mem_cons_self _ _
    · simp only [hk, if_false] at h
      exact List.mem_cons_of_mem kv (ih h)

theorem alookup_of_mem_nodup {α : Type} (l : List (String × α)) (k : String) (v : α)
    (hmem : (k, v) ∈ l) (hnd : (l.map Prod.fst).Nodup) : alookup l k = some v := by
  induction l with
  | nil => simp at hmem
  | cons kv rest ih =>
    rw [List.map_cons, List.nodup_cons] at hnd
    rw [alookup_cons]
    rcases List.mem_cons.mp hmem with heq | hmem2
    · rw [← heq]
      simp
    · have hk : kv.1 ≠ k := by
        intro hh
        exact hnd.1 (hh ▸ (List.mem_map.mpr ⟨(k, v), hmem2, rfl⟩))
      simp only [hk, if_false]
      exact ih hmem2 hnd.2

theorem alookup_append_of_some {α : Type} (l1 l2 : List (String × α)) (k : String) (v : α)
    (h : alookup l1 k = some v) : alookup (l1 ++ l2) k = some v := by
  induction l1 with
  | nil => simp [alookup, List.find?] at h
  | cons kv rest ih =>
    rw [alookup_cons] at h
    rw [List.cons_append, alookup_cons]
    by_cases hk : kv.1 = k
    · simpa [hk] using h
    · simp only [hk, if_false] at h ⊢
      exact ih h

theorem map_fst_aset_found {α : Type} (l : List (String × α)) (k : String) (v v0 : α)
    (h : alookup l k = some v0) : (aset l k v).map Prod.fst = l.map Prod.fst := by
  induction l with
  | nil => simp [alookup, List.find?] at h
  | cons kv rest ih =>
    rw [alookup_cons] at h
    by_cases hk : kv.1 = k
    · simp [aset, hk]
    · simp only [hk, if_false] at h
      simp [aset, hk, ih h]

theorem mem_aset_iff {α : Type} (l : List (String × α)) (k : String) (v : α)
    (p : String × α) (hnd : (l.map Prod.fst).Nodup) :
    p ∈ aset l k v ↔ p = (k, v) ∨ (p ∈ l ∧ ¬ p.1 = k) := by
  induction l with
  | nil => simp [aset]
  | cons kv rest ih =>
    rw [List.map_cons, List.nodup_cons] at hnd
    by_cases hk : kv.1 = k
    · simp only [aset, hk, if_true]
      constructor
      · intro hmem
        rcases List.mem_cons.mp hmem with heq | hmem2
        · left; exact heq
        · right
          refine ⟨List.mem_cons_of_mem kv hmem2, ?_⟩
          intro hh
          exact hnd.1 (hk ▸ hh ▸ (List.mem_map.mpr ⟨p, hmem2, rfl⟩))
      · intro hcases
        rcases hcases with heq | ⟨hmem2, hne⟩
        · rw [heq]; exact List.mem_cons_self _ _
        · rcases List.mem_cons.mp hmem2 with heq2 | hmem3
          · exact absurd (heq2 ▸ hk) hne
          · exact List.mem_cons_of_mem _ hmem3
    · simp only [aset, hk, if_false]
      constructor
      · intro hmem
        rcases List.mem_cons.mp hmem with heq | hmem2
        · right
          refine ⟨heq ▸ List.mem_cons_self _ _, ?_⟩
          rw [heq]
          exact hk
        · rcases (ih hnd.2).mp hmem2 with heq2 | ⟨hmem3, hne⟩
          · left; exact heq2
          · right; exact ⟨List.mem_cons_of_mem _ hmem3, hne⟩
      · intro hcases
        rcases hcases with heq | ⟨hmem2, hne⟩
        · exact List.mem_cons_of_mem _ ((ih hnd.2).mpr (Or.inl heq))
        · rcases List.mem_cons.mp hmem2 with heq2 | hmem3
          · exact heq2 ▸ List.mem_cons_self _ _
          · exact List.mem_cons_of_mem _ ((ih hnd.2).mpr (Or.inr ⟨hmem3, hne⟩))

theorem mem_stInsert (idx : List StKey) (k k2 : StKey) :
    k ∈ stInsert idx k2 ↔ k ∈ idx ∨ k = k2 := by
  unfold stInsert
  by_cases h : k2 ∈ idx
  · simp only [h, if_true]
    constructor
    · exact Or.inl
    · intro hc
      rcases hc with hm | he
      · exact hm
      · exact he ▸ h
  · simp [h]

theorem mem_stDelete (idx : List StKey) (k k2 : StKey) :
    k ∈ stDelete idx k2 ↔ k ∈ idx ∧ ¬ k = k2 := by
  simp [stDelete, List.mem_filter]

theorem nodup_stInsert (idx : List StKey) (k : StKey) (h : idx.Nodup) :
    (stInsert idx k).Nodup := by
  unfold stInsert
  by_cases hm : k ∈ idx
  · simpa [hm]
  · simpa [hm] using List.Nodup.append h (List.nodup_singleton k) (by simpa using hm)

theorem nodup_stDelete (idx : List StKey) (k : StKey) (h : idx.Nodup) :
    (stDelete idx k).Nodup :=
  List.Nodup.filter _ h

theorem mem_insertKey (x k : StKey) (l : List StKey) :
    k ∈ insertKey x l ↔ k = x ∨ k ∈ l := by
  induction l with
  | nil => simp [insertKey]
  | cons y ys ih =>
    unfold insertKey
    by_cases h : stKeyLe x y
    · simp [h]
    · simp only [h, if_false, List.mem_cons, ih]
      tauto

theorem mem_sortKeys (k : StKey) (l : List StKey) : k ∈ sortKeys l ↔ k ∈ l := by
  induction l with
  | nil => simp [sortKeys]
  | cons x xs ih =>
    unfold sortKeys
    rw [mem_insertKey, ih]
    simp

theorem mem_scanKeys (idx : List StKey) (ns : String) (st : ReqStatus) (k : StKey) :
    k ∈ scanKeys idx ns st ↔ k ∈ idx ∧ k.ns = ns ∧ k.status = st := by
  rw [scanKeys, mem_sortKeys]
  simp [List.mem_filter]

/-! ## Preservation of the invariant by the store operations -/

theorem getCount_mergeAdd (c : List ((String × ReqStatus) × Int)) (ns : String)
    (st : ReqStatus) (d : Int) (ns2 : String) (st2 : ReqStatus) :
    getCount (mergeAdd c ns st d) ns2 st2
      = getCount c ns2 st2 + (if (ns, st) = (ns2, st2) then d else 0) := by
  by_cases h : (ns, st) = (ns2, st2)
  · rw [Prod.mk.injEq] at h
    obtain ⟨h1, h2⟩ := h
    subst h1
    subst h2
    rw [getCount_mergeAdd_self]
    simp
  · rw [getCount_mergeAdd_ne _ _ _ _ _ _ (fun hh => h hh.symm)]
    simp [h]

theorem statusInd_eq_if (d : RequestRecord) (ns : String) (st : ReqStatus) :
    statusInd d ns st = if (d.nspace, d.status) = (ns, st) then 1 else 0 := by
  unfold statusInd
  by_cases h : d.nspace = ns ∧ d.status = st
  · simp [h, Prod.ext_iff]
  · rw [if_neg h, if_neg]
    intro hh
    rw [Prod.ext_iff] at hh
    exact h hh

/-- `CreateRequest` with a fresh, non-empty id preserves the invariant. -/
theorem WF_createRequest (s : PStore) (r : RequestRecord) (hWF : WF s)
    (hfresh : alookup s.reqs r.id = none) (hid : ¬ r.id = "") :
    WF (createRequest s r) := by
  have hreqs : aset s.reqs r.id (createData r) = s.reqs ++ [(r.id, createData r)] :=
    aset_of_alookup_none s.reqs r.id (createData r) hfresh
  have hnotmem : r.id ∉ s.reqs.map Prod.fst := (alookup_eq_none_iff s.reqs r.id).mp hfresh
  have hkeynew : mkStKey (createData r) ∉ s.stIndex := by
    intro hmem
    have := hWF.idxSome (mkStKey (createData r)) hmem
    rw [show (mkStKey (createData r)).id = r.id from rfl, hfresh] at this
    simp at this
  constructor
  · show ((aset s.reqs r.id (createData r)).map Prod.fst).Nodup
    rw [hreqs, List.map_append]
    refine List.Nodup.append hWF.nodupIds (List.nodup_singleton _) ?_
    intro a ha hb
    rw [List.map_singleton, List.mem_singleton] at hb
    have : a = r.id := hb
    exact hnotmem (this ▸ ha)
  · intro p hp
    rw [show (createRequest s r).reqs = aset s.reqs r.id (createData r) from rfl, hreqs] at hp
    rcases List.mem_append.mp hp with hmem | hmem
    · exact hWF.idMatch p hmem
    · have : p = (r.id, createData r) := by simpa using hmem
      rw [this]
      exact ⟨rfl, hid⟩
  · show (stInsert s.stIndex (mkStKey (createData r))).Nodup
    exact nodup_stInsert _ _ hWF.nodupIdx
  · intro k hk d hd
    rw [show (createRequest s r).stIndex = stInsert s.stIndex (mkStKey (createData r)) from rfl,
      mem_stInsert] at hk
    rw [show (createRequest s r).reqs = aset s.reqs r.id (createData r) from rfl] at hd
    rcases hk with hold | hnew
    · have hne : k.id ≠ r.id := by
        intro hh
        have := hWF.idxSome k hold
        rw [hh, hfresh] at this
        simp at this
      rw [alookup_aset_ne _ _ _ _ hne] at hd
      exact hWF.idxSound k hold d hd
    · subst hnew
      rw [show (mkStKey (createData r)).id = r.id from rfl, alookup_aset_self] at hd
      injection hd with h2
      rw [h2]
  · intro k hk
    rw [show (createRequest s r).stIndex = stInsert s.stIndex (mkStKey (createData r)) from rfl,
      mem_stInsert] at hk
    rw [show (createRequest s r).reqs = aset s.reqs r.id (createData r) from rfl]
    rcases hk with hold | hnew
    · have hne : k.id ≠ r.id := by
        intro hh
        have := hWF.idxSome k hold
        rw [hh, hfresh] at this
        simp at this
      rw [alookup_aset_ne _ _ _ _ hne]
      exact hWF.idxSome k hold
    · subst hnew
      rw [show (mkStKey (createData r)).id = r.id from rfl, alookup_aset_self]
      simp
  · intro p hp
    rw [show (createRequest s r).reqs = aset s.reqs r.id (createData r) from rfl, hreqs] at hp
    rw [show (createRequest s r).stIndex = stInsert s.stIndex (mkStKey (createData r)) from rfl,
      mem_stInsert]
    rcases List.mem_append.mp hp with hmem | hmem
    · exact Or.inl (hWF.idxComplete p hmem)
    · have : p = (r.id, createData r) := by simpa using hmem
      rw [this]
      exact Or.inr rfl
  · intro ns st
    show getCount (mergeAdd s.counts r.nspace r.status 1) ns st
      = countRecords (aset s.reqs r.id (createData r)) ns st
    rw [hreqs, countRecords_append, getCount_mergeAdd, hWF.countsOk,
      countRecords_cons, countRecords_nil, statusInd_eq_if]
    by_cases h : (r.nspace, r.status) = (ns, st) <;> simp [createData, h]

/-- Common core of the three status-moving updates: replace the record,
move its index entry from the old to the new status, and merge `-1`/`+1`
into the two counters.  Preserves the invariant for any new record value
that keeps id, namespace and `created_at`. -/
theorem WF_statusMove (s : PStore) (id : String) (d d2 : RequestRecord) (newSt : ReqStatus)
    (hWF : WF s) (hlook : alookup s.reqs id = some d)
    (hid : d2.id = d.id) (hns : d2.nspace = d.nspace) (hts : d2.createdAt = d.createdAt)
    (hst : d2.status = newSt) :
    WF { s with
      reqs := aset s.reqs id d2
      stIndex := stInsert (stDelete s.stIndex ⟨d.nspace, d.status, d.createdAt, id⟩)
        ⟨d.nspace, newSt, d.createdAt, id⟩
      counts := mergeAdd (mergeAdd s.counts d.nspace d.status (-1)) d.nspace newSt 1 } := by
  have hmemd : (id, d) ∈ s.reqs := mem_of_alookup_some s.reqs id d hlook
  have hdid : d.id = id := (hWF.idMatch (id, d) hmemd).1
  have hidne : ¬ id = "" := (hWF.idMatch (id, d) hmemd).2
  have hkd : mkStKey d = ⟨d.nspace, d.status, d.createdAt, id⟩ := by
    unfold mkStKey
    rw [hdid]
  have hk2 : mkStKey d2 = ⟨d.nspace, newSt, d.createdAt, id⟩ := by
    unfold mkStKey
    rw [hid, hns, hts, hst, hdid]
  constructor
  · show ((aset s.reqs id d2).map Prod.fst).Nodup
    rw [map_fst_aset_found _ _ _ d hlook]
    exact hWF.nodupIds
  · intro p hp
    rw [mem_aset_iff _ _ _ _ hWF.nodupIds] at hp
    rcases hp with heq | ⟨hmem, _⟩
    · rw [heq]
      exact ⟨hid.trans hdid, hidne⟩
    · exact hWF.idMatch p hmem
  · exact nodup_stInsert _ _ (nodup_stDelete _ _ hWF.nodupIdx)
  · intro k hk e he
    simp only at hk he
    rw [mem_stInsert, mem_stDelete] at hk
    rcases hk with ⟨hold, hne⟩ | hnew
    · have hkidne : k.id ≠ id := by
        intro hh
        have := hWF.idxSound k hold d (hh ▸ hlook)
        rw [hkd] at this
        exact hne this
      rw [alookup_aset_ne _ _ _ _ hkidne] at he
      exact hWF.idxSound k hold e he
    · subst hnew
      rw [show (StKey.mk d.nspace newSt d.createdAt id).id = id from rfl,
        alookup_aset_self] at he
      injection he with h2
      rw [h2] at hk2
      exact hk2.symm
  · intro k hk
    simp only at hk
    rw [mem_stInsert, mem_stDelete] at hk
    rcases hk with ⟨hold, hne⟩ | hnew
    · have hkidne : k.id ≠ id := by
        intro hh
        have := hWF.idxSound k hold d (hh ▸ hlook)
        rw [hkd] at this
        exact hne this
      show (alookup (aset s.reqs id d2) k.id).isSome
      rw [alookup_aset_ne _ _ _ _ hkidne]
      exact hWF.idxSome k hold
    · subst hnew
      show (alookup (aset s.reqs id d2) id).isSome
      rw [alookup_aset_self]
      simp
  · intro p hp
    simp only at hp ⊢
    rw [mem_aset_iff _ _ _ _ hWF.nodupIds] at hp
    rw [mem_stInsert, mem_stDelete]
    rcases hp with heq | ⟨hmem, hne⟩
    · right
      rw [heq]
      exact hk2
    · left
      refine ⟨hWF.idxComplete p hmem, ?_⟩
      intro hh
      have : (mkStKey p.2).id = p.2.id := rfl
      rw [hh] at this
      exact hne (((hWF.idMatch p hmem).1.symm.trans this.symm))
  · intro ns st
    show getCount (mergeAdd (mergeAdd s.counts d.nspace d.status (-1)) d.nspace newSt 1) ns st
      = countRecords (aset s.reqs id d2) ns st
    rw [getCount_mergeAdd, getCount_mergeAdd, hWF.countsOk,
      countRecords_aset_found _ _ _ _ _ _ hlook, statusInd_eq_if, statusInd_eq_if, hns, hst]
    by_cases h1 : (d.nspace, d.status) = (ns, st) <;>
      by_cases h2 : (d.nspace, newSt) = (ns, st) <;>
      simp [h1, h2] <;> ring

/-- `UpdateRequestStatus` preserves the invariant (for any status and
instant, found or not). -/
theorem WF_updateRequestStatus (s : PStore) (id : String) (st : ReqStatus) (t : Int)
    (hWF : WF s) : WF (updateRequestStatus s id st t).2 := by
  unfold updateRequestStatus
  cases hlook : alookup s.reqs id with
  | none => exact hWF
  | some d => exact WF_statusMove s id d _ st hWF hlook rfl rfl rfl rfl

/-- `UpdateRequestResponse` preserves the invariant. -/
theorem WF_updateRequestResponse (s : PStore) (id : String) (resp : Payload) (now : Int)
    (hWF : WF s) : WF (updateRequestResponse s id resp now).2 := by
  unfold updateRequestResponse
  cases hlook : alookup s.reqs id with
  | none => exact hWF
  | some d => exact WF_statusMove s id d _ .completed hWF hlook rfl rfl rfl rfl

/-- `UpdateRequestError` preserves the invariant. -/
theorem WF_updateRequestError (s : PStore) (id : String) (msg : String) (now : Int)
    (hWF : WF s) : WF (updateRequestError s id msg now).2 := by
  unfold updateRequestError
  cases hlook : alookup s.reqs id with
  | none => exact hWF
  | some d => exact WF_statusMove s id d _ .failed hWF hlook rfl rfl rfl rfl

theorem status_mem_statusList (st : ReqStatus) : st ∈ statusList := by
  cases st <;> simp [statusList]

theorem mem_statusJoin (idx : List StKey) (name : String) (k : StKey) :
    k ∈ (statusList.map (fun st => scanKeys idx name st)).flatten ↔ k ∈ idx ∧ k.ns = name := by
  rw [List.mem_flatten]
  constructor
  · rintro ⟨l, hl, hk⟩
    rw [List.mem_map] at hl
    obtain ⟨st, _, rfl⟩ := hl
    have := (mem_scanKeys idx name st k).mp hk
    exact ⟨this.1, this.2.1⟩
  · rintro ⟨hkidx, hkns⟩
    refine ⟨scanKeys idx name k.status, ?_, ?_⟩
    · rw [List.mem_map]
      exact ⟨k.status, status_mem_statusList _, rfl⟩
    · rw [mem_scanKeys]
      exact ⟨hkidx, hkns, rfl⟩

theorem foldl_adel_filter {α : Type} (ids : List String) (l : List (String × α)) :
    ids.foldl (fun acc i => adel acc i) l = l.filter (fun p => ¬ p.1 ∈ ids) := by
  induction ids generalizing l with
  | nil => simp
  | cons i ids ih =>
    rw [List.foldl_cons, ih]
    unfold adel
    rw [List.filter_filter]
    apply List.filter_congr
    intro p hp
    by_cases h1 : p.1 = i <;> by_cases h2 : p.1 ∈ ids <;> simp [h1, h2]

theorem foldl_stDelete_filter (ks : List StKey) (idx : List StKey) :
    ks.foldl (fun acc k => stDelete acc k) idx = idx.filter (fun k => ¬ k ∈ ks) := by
  induction ks generalizing idx with
  | nil => simp
  | cons k ks ih =>
    rw [List.foldl_cons, ih]
    unfold stDelete
    rw [List.filter_filter]
    apply List.filter_congr
    intro k2 hk2
    by_cases h1 : k2 = k <;> by_cases h2 : k2 ∈ ks <;> simp [h1, h2]

theorem getCount_countDeleteFold (sts : List ReqStatus)
    (c : List ((String × ReqStatus) × Int)) (name ns : String) (st : ReqStatus) :
    getCount (sts.foldl (fun c2 st2 => countDelete c2 name st2) c) ns st
      = if ns = name ∧ st ∈ sts then 0 else getCount c ns st := by
  induction sts generalizing c with
  | nil => simp
  | cons s0 rest ih =>
    rw [List.foldl_cons, ih]
    by_cases hmem : ns = name ∧ st ∈ rest
    · have hall : ns = name ∧ st ∈ s0 :: rest := ⟨hmem.1, List.mem_cons_of_mem _ hmem.2⟩
      rw [if_pos hmem, if_pos hall]
    · by_cases h2 : ns = name ∧ st = s0
      · obtain ⟨hn, hs⟩ := h2
        subst hn
        subst hs
        have hhead : ns = ns ∧ st ∈ st :: rest := ⟨rfl, List.mem_cons_self _ _⟩
        rw [if_neg hmem, if_pos hhead]
        exact getCount_countDelete_self c ns st
      · have hne : (ns, st) ≠ (name, s0) := by
          intro hh
          rw [Prod.mk.injEq] at hh
          exact h2 hh
        rw [getCount_countDelete_ne _ _ _ _ _ hne]
        have hall : ¬ (ns = name ∧ st ∈ s0 :: rest) := by
          intro hh
          rcases List.mem_cons.mp hh.2 with he | hm
          · exact h2 ⟨hh.1, he⟩
          · exact hmem ⟨hh.1, hm⟩
        rw [if_neg hmem, if_neg hall]

theorem countRecords_filter_ns_self (l : List (String × RequestRecord)) (name : String)
    (st : ReqStatus) :
    countRecords (l.filter (fun p => ¬ p.2.nspace = name)) name st = 0 := by
  induction l with
  | nil => simp [countRecords]
  | cons p rest ih =>
    rw [List.filter_cons]
    by_cases h : p.2.nspace = name
    · rw [if_neg (by simp [h])]
      exact ih
    · rw [if_pos (by simp [h]), countRecords_cons, statusInd_eq_if, if_neg, ih]
      · ring
      · intro hh
        rw [Prod.mk.injEq] at hh
        exact h hh.1

theorem countRecords_filter_ns_other (l : List (String × RequestRecord)) (name ns : String)
    (st : ReqStatus) (h : ns ≠ name) :
    countRecords (l.filter (fun p => ¬ p.2.nspace = name)) ns st = countRecords l ns st := by
  induction l with
  | nil => simp
  | cons p rest ih =>
    rw [List.filter_cons, countRecords_cons]
    by_cases hp : p.2.nspace = name
    · have hzero : statusInd p.2 ns st = 0 := by
        rw [statusInd_eq_if, if_neg]
        intro hh
        rw [Prod.mk.injEq] at hh
        apply h
        rw [← hh.1, hp]
      rw [if_neg (by simp [hp]), ih, hzero]
      ring
    · rw [if_pos (by simp [hp]), countRecords_cons, ih]

/-- Under the invariant, `DeleteNamespace` removes exactly the records and
index entries of the namespace. -/
theorem deleteNamespace_spec (s : PStore) (name : String) (hWF : WF s) :
    (deleteNamespace s name).1.reqs = s.reqs.filter (fun p => ¬ p.2.nspace = name)
    ∧ (deleteNamespace s name).1.stIndex = s.stIndex.filter (fun k => ¬ k.ns = name) := by
  have hmemkeys : ∀ k : StKey,
      k ∈ (statusList.map (fun st => scanKeys s.stIndex name st)).flatten
        ↔ k ∈ s.stIndex ∧ k.ns = name := mem_statusJoin s.stIndex name
  have hkeysid : ∀ k ∈ (statusList.map (fun st => scanKeys s.stIndex name st)).flatten,
      ¬ k.id = "" := by
    intro k hk
    obtain ⟨hkidx, _⟩ := (hmemkeys k).mp hk
    have hsome := hWF.idxSome k hkidx
    rw [Option.isSome_iff_exists] at hsome
    obtain ⟨d, hd⟩ := hsome
    have hmem := mem_of_alookup_some _ _ _ hd
    exact (hWF.idMatch (k.id, d) hmem).2
  have hdelkeys : ((statusList.map (fun st => scanKeys s.stIndex name st)).flatten).filter
      (fun k => ¬ k.id = "")
      = (statusList.map (fun st => scanKeys s.stIndex name st)).flatten := by
    apply List.filter_eq_self.mpr
    intro k hk
    simpa using hkeysid k hk
  have hidmem : ∀ p ∈ s.reqs,
      (p.1 ∈ ((statusList.map (fun st => scanKeys s.stIndex name st)).flatten).map StKey.id
        ↔ p.2.nspace = name) := by
    intro p hp
    constructor
    · intro hin
      rw [List.mem_map] at hin
      obtain ⟨k, hk, hkid⟩ := hin
      obtain ⟨hkidx, hkns⟩ := (hmemkeys k).mp hk
      have hsome := hWF.idxSome k hkidx
      rw [Option.isSome_iff_exists] at hsome
      obtain ⟨d, hd⟩ := hsome
      have hkey := hWF.idxSound k hkidx d hd
      have hlookp : alookup s.reqs p.1 = some p.2 := by
        have hpp : (p.1, p.2) ∈ s.reqs := by simpa using hp
        exact alookup_of_mem_nodup _ _ _ hpp hWF.nodupIds
      rw [hkid] at hd
      rw [hlookp] at hd
      injection hd with hd2
      have hkns2 : d.nspace = name := by
        have hke : k.ns = d.nspace := by rw [hkey]; rfl
        rw [← hke]
        exact hkns
      rw [hd2]
      exact hkns2
    · intro hns
      rw [List.mem_map]
      refine ⟨mkStKey p.2, ?_, (hWF.idMatch p hp).1⟩
      rw [hmemkeys]
      exact ⟨hWF.idxComplete p hp, hns⟩
  constructor
  · show ((((statusList.map (fun st => scanKeys s.stIndex name st)).flatten).filter
      (fun k => ¬ k.id = "")).foldl (fun l k => adel l k.id) s.reqs)
      = s.reqs.filter (fun p => ¬ p.2.nspace = name)
    rw [hdelkeys, ← List.foldl_map StKey.id (fun acc i => adel acc i), foldl_adel_filter]
    apply List.filter_congr
    intro p hp
    simp only [decide_eq_decide]
    exact not_congr (hidmem p hp)
  · show ((((statusList.map (fun st => scanKeys s.stIndex name st)).flatten).filter
      (fun k => ¬ k.id = "")).foldl (fun idx k => stDelete idx k) s.stIndex)
      = s.stIndex.filter (fun k => ¬ k.ns = name)
    rw [hdelkeys, foldl_stDelete_filter]
    apply List.filter_congr
    intro k hk
    simp only [decide_eq_decide]
    exact not_congr ⟨fun hc => ((hmemkeys k).mp hc).2, fun h => (hmemkeys k).mpr ⟨hk, h⟩⟩

/-- `DeleteNamespace` preserves the invariant. -/
theorem WF_deleteNamespace (s : PStore) (name : String) (hWF : WF s) :
    WF (deleteNamespace s name).1 := by
  obtain ⟨hreqs, hidx⟩ := deleteNamespace_spec s name hWF
  have hcounts : (deleteNamespace s name).1.counts
      = statusList.foldl (fun c st => countDelete c name st) s.counts := rfl
  have hnodup2 : (((s.reqs.filter (fun p => ¬ p.2.nspace = name)).map Prod.fst)).Nodup :=
    List.Nodup.sublist (List.Sublist.map Prod.fst (List.filter_sublist s.reqs)) hWF.nodupIds
  constructor
  · rw [hreqs]
    exact hnodup2
  · intro p hp
    rw [hreqs, List.mem_filter] at hp
    exact hWF.idMatch p hp.1
  · rw [hidx]
    exact List.Nodup.sublist (List.filter_sublist s.stIndex) hWF.nodupIdx
  · intro k hk e he
    rw [hidx, List.mem_filter] at hk
    rw [hreqs] at he
    have hmem := mem_of_alookup_some _ _ _ he
    rw [List.mem_filter] at hmem
    have : alookup s.reqs k.id = some e :=
      alookup_of_mem_nodup _ _ _ hmem.1 hWF.nodupIds
    exact hWF.idxSound k hk.1 e this
  · intro k hk
    rw [hidx, List.mem_filter] at hk
    obtain ⟨hkidx, hkns⟩ := hk
    have hsome := hWF.idxSome k hkidx
    rw [Option.isSome_iff_exists] at hsome
    obtain ⟨d, hd⟩ := hsome
    have hkey := hWF.idxSound k hkidx d hd
    have hdns : ¬ d.nspace = name := by
      intro hh
      have hke : k.ns = d.nspace := by rw [hkey]; rfl
      rw [← hke] at hh
      simp [hh] at hkns
    have hmem := mem_of_alookup_some _ _ _ hd
    have hmem2 : (k.id, d) ∈ s.reqs.filter (fun p => ¬ p.2.nspace = name) := by
      rw [List.mem_filter]
      exact ⟨hmem, by simpa using hdns⟩
    rw [hreqs]
    have : alookup (s.reqs.filter (fun p => ¬ p.2.nspace = name)) k.id = some d :=
      alookup_of_mem_nodup _ _ _ hmem2 (hreqs ▸ (hreqs ▸ hnodup2))
    rw [this]
    simp
  · intro p hp
    rw [hreqs, List.mem_filter] at hp
    rw [hidx, List.mem_filter]
    refine ⟨hWF.idxComplete p hp.1, ?_⟩
    have : (mkStKey p.2).ns = p.2.nspace := rfl
    rw [this]
    exact hp.2
  · intro ns st
    rw [hcounts, hreqs, getCount_countDeleteFold]
    by_cases h : ns = name
    · subst h
      rw [if_pos ⟨rfl, status_mem_statusList st⟩, countRecords_filter_ns_self]
    · rw [if_neg (fun hh => h hh.1), hWF.countsOk,
        countRecords_filter_ns_other _ _ _ _ h]

/-- The empty store is well-formed. -/
theorem WF_empty : WF PStore.empty := by
  constructor <;> intros <;> simp_all [PStore.empty, alookup, List.find?, getCount, countRecords]

/-! ## Sample data used by concrete witnesses and counterexamples -/

/-- A small chat-completion payload. -/
def samplePayload : Payload := [("model", JVal.s "m0"), ("k", JVal.n 1)]

/-- A namespace with no provider configuration. -/
def sampleNs : NamespaceRecord :=
  { name := "n", description := "", providerEndpoint := none, providerAPIKey := none,
    providerModel := none, providerHeaders := [], createdAt := 0, updatedAt := 0 }

/-- A freshly submitted request as the API layer builds it. -/
def sampleRecord : RequestRecord :=
  { id := "a", nspace := "n", status := .queued, requestPayload := samplePayload,
    passthroughHeaders := [], headerEndpoint := none, headerAPIKey := none,
    responsePayload := none, error := none, createdAt := 100,
    dispatchedAt := none, completedAt := none }

/-! ## C1 — `dispatched_at` on `UpdateRequestStatus` -/

/-- C1 (amended): `UpdateRequestStatus` on an existing record always sets
`dispatched_at` to the provided instant — for every target status, and
also when it was already set — and `GetRequest` returns the stored
value. -/
theorem C1_dispatchedAt_always_overwritten (s : PStore) (id : String) (st : ReqStatus)
    (t : Int) (d : RequestRecord) (h : alookup s.reqs id = some d) :
    getRequest (updateRequestStatus s id st t).2 id
      = some { d with status := st, dispatchedAt := some t } := by
  unfold updateRequestStatus
  rw [h]
  show alookup (aset s.reqs id _) id = _
  rw [alookup_aset_self]

/-- C1 witness: the amended theorem applied to a concrete store. -/
theorem C1_witness :
    getRequest (updateRequestStatus (createRequest PStore.empty sampleRecord)
      "a" ReqStatus.processing 5).2 "a"
      = some { createData sampleRecord with
               status := ReqStatus.processing, dispatchedAt := some 5 } :=
  C1_dispatchedAt_always_overwritten _ "a" ReqStatus.processing 5
    (createData sampleRecord) (by decide)

/-- C1 counterexample: a record whose `dispatched_at` is already set (to 5)
is moved to `completed` — a transition for which the claim requires
`dispatched_at` to stay unchanged — yet the store rewrites it to the
provided instant 7. -/
theorem C1_counterexample :
    (getRequest ((updateRequestStatus ((updateRequestStatus
        (createRequest PStore.empty sampleRecord) "a" ReqStatus.processing 5).2)
        "a" ReqStatus.completed 7).2) "a").map RequestRecord.dispatchedAt
      = some (some 7) := by decide

/-! ## C5 — missing id on `UpdateRequestStatus` -/

theorem sqliteUpdate_map_missing (db : SqliteDb) (id : String) (st : ReqStatus)
    (h : alookup db id = none) :
    db.map (fun kv => if kv.1 = id then (kv.1, { kv.2 with status := st }) else kv) = db := by
  induction db with
  | nil => simp
  | cons kv rest ih =>
    rw [alookup_cons] at h
    by_cases hk : kv.1 = id
    · simp [hk] at h
    · simp only [List.map_cons, hk, if_false]
      rw [ih (by simpa [hk] using h)]

/-- C5 (amended): on a missing id the pebbledb store fails with a
not-found error and leaves the store unchanged, while the sqlite store's
`UpdateRequestStatus` (a bare `UPDATE ... WHERE id = ?`) returns success
and changes nothing. -/
theorem C5_update_missing_id :
    (∀ (s : PStore) (id : String) (st : ReqStatus) (t : Int),
      alookup s.reqs id = none →
        updateRequestStatus s id st t = (Except.error ("request not found: " ++ id), s))
    ∧ (∀ (db : SqliteDb) (id : String) (st : ReqStatus),
      alookup db id = none → sqliteUpdateRequestStatus db id st = (Except.ok (), db)) := by
  constructor
  · intro s id st t h
    unfold updateRequestStatus
    rw [h]
  · intro db id st h
    unfold sqliteUpdateRequestStatus
    rw [sqliteUpdate_map_missing db id st h]

/-- C5 witness: both halves applied at concrete inputs. -/
theorem C5_witness :
    updateRequestStatus PStore.empty "x" ReqStatus.processing 3
      = (Except.error ("request not found: " ++ "x"), PStore.empty)
    ∧ sqliteUpdateRequestStatus [] "x" ReqStatus.processing = (Except.ok (), []) :=
  ⟨C5_update_missing_id.1 PStore.empty "x" ReqStatus.processing 3 rfl,
   C5_update_missing_id.2 [] "x" ReqStatus.processing rfl⟩

/-- C5 counterexample: the sqlite store returns success for an id that
does not exist, where the claim requires a NotFound failure. -/
theorem C5_counterexample :
    (sqliteUpdateRequestStatus [] "x" ReqStatus.processing).1 = Except.ok () := rfl

/-! ## C6 — duplicate id on `CreateRequest` -/

/-- C6: pebbledb `CreateRequest` performs no duplicate check — a second
create with the same id reports success, silently overwrites the
record, and drives the `(namespace, status)` counter to 2 while only
one record exists; the sqlite store (whose schema declares `id` as
primary key) rejects the same call. -/
theorem C6_duplicate_create_overwrites :
    getCount (createRequest (createRequest PStore.empty sampleRecord)
      sampleRecord).counts "n" ReqStatus.queued = 2
    ∧ (createRequest (createRequest PStore.empty sampleRecord) sampleRecord).reqs.length = 1
    ∧ getRequest (createRequest (createRequest PStore.empty sampleRecord) sampleRecord) "a"
      = some (createData sampleRecord)
    ∧ (sqliteCreateRequest (sqliteCreateRequest [] sampleRecord).2 sampleRecord).1
      = Except.error "UNIQUE constraint failed: requests.id" :=
  ⟨by decide, by decide, by decide, rfl⟩

/-! ## C7 / C8 — dispatcher per-request processing -/

theorem updateError_found (s : PStore) (id : String) (msg : String) (now : Int)
    (d : RequestRecord) (h : alookup s.reqs id = some d) :
    updateRequestError s id msg now
      = (Except.ok (), { s with
          reqs := aset s.reqs id { d with
            status := .failed, error := some msg, completedAt := some now }
          stIndex := stInsert (stDelete s.stIndex ⟨d.nspace, d.status, d.createdAt, id⟩)
            ⟨d.nspace, .failed, d.createdAt, id⟩
          counts := mergeAdd (mergeAdd s.counts d.nspace d.status (-1))
            d.nspace .failed 1 }) := by
  unfold updateRequestError
  rw [h]

theorem updateResponse_found (s : PStore) (id : String) (resp : Payload) (now : Int)
    (d : RequestRecord) (h : alookup s.reqs id = some d) :
    updateRequestResponse s id resp now
      = (Except.ok (), { s with
          reqs := aset s.reqs id { d with
            status := .completed, responsePayload := some resp, completedAt := some now }
          stIndex := stInsert (stDelete s.stIndex ⟨d.nspace, d.status, d.createdAt, id⟩)
            ⟨d.nspace, .completed, d.createdAt, id⟩
          counts := mergeAdd (mergeAdd s.counts d.nspace d.status (-1))
            d.nspace .completed 1 }) := by
  unfold updateRequestResponse
  rw [h]

theorem updateStatus_found (s : PStore) (id : String) (st : ReqStatus) (t : Int)
    (d : RequestRecord) (h : alookup s.reqs id = some d) :
    updateRequestStatus s id st t
      = (Except.ok (), { s with
          reqs := aset s.reqs id { d with status := st, dispatchedAt := some t }
          stIndex := stInsert (stDelete s.stIndex ⟨d.nspace, d.status, d.createdAt, id⟩)
            ⟨d.nspace, st, d.createdAt, id⟩
          counts := mergeAdd (mergeAdd s.counts d.nspace d.status (-1)) d.nspace st 1 }) := by
  unfold updateRequestStatus
  rw [h]

/-- C7: when the resolved endpoint is empty, per-request processing never
invokes the provider, records exactly
`"Missing required configuration: API endpoint"` via
`UpdateRequestError`, and leaves the request `failed` with a null
response. -/
theorem C7_missing_endpoint (s : PStore) (ns : NamespaceRecord) (req : RequestRecord)
    (now : Int) (pr : Except String Payload) (d : RequestRecord)
    (hend : resolveEndpoint ns req.headerEndpoint = "")
    (hlook : alookup s.reqs req.id = some d)
    (hresp : d.responsePayload = none) :
    (processRequest s ns req now pr).providerCalled = false
    ∧ (processRequest s ns req now pr).sentPayload = none
    ∧ getRequest (processRequest s ns req now pr).store req.id
      = some { d with
               status := .failed,
               error := some "Missing required configuration: API endpoint",
               completedAt := some now }
    ∧ (getRequest (processRequest s ns req now pr).store req.id).map
        RequestRecord.responsePayload = some none := by
  have hproc : processRequest s ns req now pr
      = { store := (updateRequestError s req.id
            "Missing required configuration: API endpoint" now).2
          providerCalled := false, sentPayload := none, sentHeaders := none } := by
    unfold processRequest
    rw [hend]
    simp
  rw [hproc, updateError_found s req.id _ now d hlook]
  refine ⟨rfl, rfl, ?_, ?_⟩
  · show alookup (aset s.reqs req.id _) req.id = _
    rw [alookup_aset_self]
  · show (alookup (aset s.reqs req.id _) req.id).map RequestRecord.responsePayload = _
    rw [alookup_aset_self]
    simp [hresp]

/-- C7 witness: a namespace with no provider endpoint and a request with
no header endpoint. -/
theorem C7_witness :
    (processRequest (createRequest PStore.empty sampleRecord) sampleNs sampleRecord 9
      (Except.ok [])).providerCalled = false :=
  (C7_missing_endpoint (createRequest PStore.empty sampleRecord) sampleNs sampleRecord 9
    (Except.ok []) (createData sampleRecord) rfl (by decide) rfl).1

theorem getVal_eq_alookup (p : Payload) (k : String) : Payload.getVal p k = alookup p k := rfl

/-- Lookup characterization of the model override: the `"model"` key takes
the namespace's model, every other key reads from the original payload. -/
theorem effective_getVal (pay : Payload) (m : Option String) (k : String) :
    Payload.getVal (match m with
      | some mm => cloneAndOverrideModel pay mm
      | none => pay) k
      = if m.isSome ∧ k = "model" then m.map JVal.s else Payload.getVal pay k := by
  cases m with
  | none => simp
  | some mm =>
    unfold cloneAndOverrideModel
    by_cases hk : k = "model"
    · subst hk
      rw [getVal_eq_alookup, alookup_aset_self]
      simp
    · rw [getVal_eq_alookup, alookup_aset_ne _ _ _ _ hk, ← getVal_eq_alookup]
      simp [hk]

/-- C8: the payload handed to the provider is the stored payload with only
the `"model"` key overridden when the namespace sets `provider_model`,
and per-request processing leaves the stored `request_payload`
untouched for every provider outcome. -/
theorem C8_payload_clone (s : PStore) (ns : NamespaceRecord) (req : RequestRecord)
    (now : Int) (pr : Except String Payload) (d : RequestRecord)
    (hlook : alookup s.reqs req.id = some d)
    (hpay : d.requestPayload = req.requestPayload) :
    (∀ p, (processRequest s ns req now pr).sentPayload = some p →
      ∀ k, Payload.getVal p k
        = if ns.providerModel.isSome ∧ k = "model"
          then ns.providerModel.map JVal.s
          else Payload.getVal req.requestPayload k)
    ∧ (getRequest (processRequest s ns req now pr).store req.id).map
        RequestRecord.requestPayload = some req.requestPayload := by
  by_cases hep : resolveEndpoint ns req.headerEndpoint = ""
  · have hred : processRequest s ns req now pr
        = { store := (updateRequestError s req.id
              "Missing required configuration: API endpoint" now).2
            providerCalled := false, sentPayload := none, sentHeaders := none } := by
      unfold processRequest
      rw [hep]
      simp
    rw [hred]
    refine ⟨fun p hp => by simp at hp, ?_⟩
    rw [updateError_found s req.id _ now d hlook]
    show (alookup (aset s.reqs req.id _) req.id).map RequestRecord.requestPayload = _
    rw [alookup_aset_self]
    simpa using hpay
  · by_cases hak : resolveAPIKey ns req.headerAPIKey = ""
    · have hred : processRequest s ns req now pr
          = { store := (updateRequestError s req.id
                "Missing required configuration: API key" now).2
              providerCalled := false, sentPayload := none, sentHeaders := none } := by
        unfold processRequest
        rw [if_neg hep, hak]
        simp
      rw [hred]
      refine ⟨fun p hp => by simp at hp, ?_⟩
      rw [updateError_found s req.id _ now d hlook]
      show (alookup (aset s.reqs req.id _) req.id).map RequestRecord.requestPayload = _
      rw [alookup_aset_self]
      simpa using hpay
    · cases pr with
      | error e =>
        have hred : processRequest s ns req now (Except.error e)
            = { store := (updateRequestError
                  (updateRequestStatus s req.id .processing now).2 req.id
                  ("Provider request failed: " ++ e) now).2
                providerCalled := true
                sentPayload := some (match ns.providerModel with
                  | some m => cloneAndOverrideModel req.requestPayload m
                  | none => req.requestPayload)
                sentHeaders := some (mergeHeaders ns req.passthroughHeaders) } := by
          unfold processRequest
          rw [if_neg hep, if_neg hak, updateStatus_found s req.id ReqStatus.processing now d hlook]
        rw [hred]
        constructor
        · intro p hp k
          simp only [Option.some.injEq] at hp
          rw [← hp]
          exact effective_getVal req.requestPayload ns.providerModel k
        · rw [updateStatus_found s req.id ReqStatus.processing now d hlook]
          rw [updateError_found _ req.id _ now
            { d with status := .processing, dispatchedAt := some now }
            (by show alookup (aset s.reqs req.id _) req.id = _; rw [alookup_aset_self])]
          show (alookup (aset (aset s.reqs req.id _) req.id _) req.id).map
            RequestRecord.requestPayload = _
          rw [alookup_aset_self]
          simpa using hpay
      | ok resp =>
        have hred : processRequest s ns req now (Except.ok resp)
            = { store := (updateRequestResponse
                  (updateRequestStatus s req.id .processing now).2 req.id resp now).2
                providerCalled := true
                sentPayload := some (match ns.providerModel with
                  | some m => cloneAndOverrideModel req.requestPayload m
                  | none => req.requestPayload)
                sentHeaders := some (mergeHeaders ns req.passthroughHeaders) } := by
          unfold processRequest
          rw [if_neg hep, if_neg hak, updateStatus_found s req.id ReqStatus.processing now d hlook]
        rw [hred]
        constructor
        · intro p hp k
          simp only [Option.some.injEq] at hp
          rw [← hp]
          exact effective_getVal req.requestPayload ns.providerModel k
        · rw [updateStatus_found s req.id ReqStatus.processing now d hlook]
          rw [updateResponse_found _ req.id resp now
            { d with status := .processing, dispatchedAt := some now }
            (by show alookup (aset s.reqs req.id _) req.id = _; rw [alookup_aset_self])]
          show (alookup (aset (aset s.reqs req.id _) req.id _) req.id).map
            RequestRecord.requestPayload = _
          rw [alookup_aset_self]
          simpa using hpay

/-- C8 witness: processing with a configured model override, on a provider
success, leaves the stored payload intact. -/
theorem C8_witness :
    (getRequest (processRequest (createRequest PStore.empty sampleRecord)
      { sampleNs with
        providerEndpoint := some "http://up", providerAPIKey := some "k",
        providerModel := some "m1" }
      sampleRecord 9 (Except.ok [("ok", JVal.n 1)])).store "a").map
      RequestRecord.requestPayload = some sampleRecord.requestPayload :=
  (C8_payload_clone (createRequest PStore.empty sampleRecord)
    { sampleNs with
      providerEndpoint := some "http://up", providerAPIKey := some "k",
      providerModel := some "m1" }
    sampleRecord 9 (Except.ok [("ok", JVal.n 1)]) (createData sampleRecord)
    (by decide) rfl).2

/-! ## C9 — create/get round trip -/

theorem getD_headers (l : List (String × String)) :
    (if l.isEmpty then none else some l).getD ([] : List (String × String)) = l := by
  cases l <;> simp

/-- C9 (amended): for a queued record with no terminal fields set, the
pebbledb store round-trips the record exactly, `created_at` at full
nanosecond precision; the sqlite store stores `created_at` in whole
seconds, so the round trip returns it floored to a second (and no
`dispatched_at` column exists there). -/
theorem C9_roundtrip (s : PStore) (db : SqliteDb) (r : RequestRecord)
    (hq : r.status = .queued) (hresp : r.responsePayload = none) (herr : r.error = none)
    (hdisp : r.dispatchedAt = none) (hcomp : r.completedAt = none)
    (hdb : alookup db r.id = none) :
    getRequest (createRequest s r) r.id = some r
    ∧ sqliteGetRequest (sqliteCreateRequest db r).2 r.id
      = some { r with createdAt := r.createdAt.fdiv 1000000000 * 1000000000 } := by
  have hcd : createData r = r := by
    cases r
    simp only at hresp herr hdisp hcomp
    simp [createData, hresp, herr, hdisp, hcomp]
  constructor
  · show alookup (aset s.reqs r.id (createData r)) r.id = some r
    rw [alookup_aset_self, hcd]
  · unfold sqliteCreateRequest
    rw [hdb]
    unfold sqliteGetRequest
    show (alookup (db ++ [_]) r.id).map sqlRowToRecord = _
    rw [alookup_append_left _ _ _ hdb, alookup_cons]
    simp only [if_pos rfl, Option.map_some]
    unfold sqlRowToRecord
    cases r
    simp only at hresp herr hdisp hcomp
    simp [hresp, herr, hdisp, hcomp]
    split <;> simp_all

/-- C9 witness: the pebbledb round trip at a concrete record. -/
theorem C9_witness :
    getRequest (createRequest PStore.empty sampleRecord) sampleRecord.id = some sampleRecord :=
  (C9_roundtrip PStore.empty [] sampleRecord rfl rfl rfl rfl rfl rfl).1

/-- A queued record with a sub-second `created_at` component
(1.5 seconds = 1500000000 ns). -/
def c9Record : RequestRecord := { sampleRecord with id := "c", createdAt := 1500000000 }

/-- C9 counterexample: the sqlite store truncates `created_at` to whole
seconds, so the round trip does not return the record unchanged. -/
theorem C9_counterexample :
    sqliteGetRequest (sqliteCreateRequest [] c9Record).2 "c" ≠ some c9Record := by decide

/-! ## C10 — HTTP response shape of a request -/

/-- C10: the JSON object for a request contains only `id`, `namespace`,
`status`, `created_at`, plus `response`, `error` and `completed_at`
exactly when they are set; `request` (the stored payload),
`passthrough_headers` and `dispatched_at` never appear. -/
theorem C10_response_shape (fmt : Int → String) (record : RequestRecord) :
    ("request" ∉ requestJsonKeys (recordToRequest fmt record))
    ∧ ("passthrough_headers" ∉ requestJsonKeys (recordToRequest fmt record))
    ∧ ("dispatched_at" ∉ requestJsonKeys (recordToRequest fmt record))
    ∧ requestJsonKeys (recordToRequest fmt record)
      = ["id", "namespace", "status"]
        ++ (if record.responsePayload.isSome then ["response"] else [])
        ++ (if record.error.isSome then ["error"] else [])
        ++ ["created_at"]
        ++ (if record.completedAt.isSome then ["completed_at"] else []) := by
  cases hr : record.responsePayload <;> cases he : record.error <;>
    cases hc : record.completedAt <;>
    simp [requestJsonKeys, recordToRequest, hr, he, hc]

/-! ## C2 — cursor pagination direction -/

/-- A second request, newer than `sampleRecord`. -/
def c2RecB : RequestRecord := { sampleRecord with id := "b", createdAt := 200 }

/-- A third request, older than the cursor. -/
def c2RecC : RequestRecord := { sampleRecord with id := "c", createdAt := 50 }

/-- C2: with cursor 100 (the `created_at` of `sampleRecord`), pebbledb
`ListRequests` returns precisely the records with `created_at` 100 and
200 — those at or after the cursor — and skips the strictly older one
(50), the exact opposite of the claimed strictly-smaller window. -/
theorem C2_cursor_returns_newer :
    ((listRequests (createRequest (createRequest (createRequest PStore.empty c2RecC)
        sampleRecord) c2RecB)
      { nspace := some "n", status := none, limit := 0, cursor := some 100 }).toOption.map
      (fun rt => rt.1.map RequestRecord.createdAt)) = some [100, 200] := by decide

/-! ## C4 — counters equal bucket sizes -/

/-- The counter/record equality of spec invariant 1: every
`count:{ns}:{status}` value equals the number of request records in
that bucket. -/
def countersMatch (s : PStore) : Prop :=
  ∀ ns st, getCount s.counts ns st = countRecords s.reqs ns st

/-- C4 (amended): from any well-formed quiescent state, every store
operation preserves the counter equality — with the proviso forced by
the counterexample that `CreateRequest` is called with an id not
already present (pebbledb does not guard against duplicates). -/
theorem C4_counters_preserved (s : PStore) (hWF : WF s) :
    (∀ r : RequestRecord, alookup s.reqs r.id = none → ¬ r.id = "" →
      countersMatch (createRequest s r))
    ∧ (∀ id st t, countersMatch (updateRequestStatus s id st t).2)
    ∧ (∀ id resp now, countersMatch (updateRequestResponse s id resp now).2)
    ∧ (∀ id msg now, countersMatch (updateRequestError s id msg now).2)
    ∧ (∀ name, countersMatch (deleteNamespace s name).1) :=
  ⟨fun r h1 h2 => (WF_createRequest s r hWF h1 h2).countsOk,
   fun id st t => (WF_updateRequestStatus s id st t hWF).countsOk,
   fun id resp now => (WF_updateRequestResponse s id resp now hWF).countsOk,
   fun id msg now => (WF_updateRequestError s id msg now hWF).countsOk,
   fun name => (WF_deleteNamespace s name hWF).countsOk⟩

/-- C4 witness: a status transition on a one-record store keeps the
counters in step. -/
theorem C4_witness :
    countersMatch (updateRequestStatus (createRequest PStore.empty sampleRecord)
      "a" ReqStatus.processing 5).2 :=
  (C4_counters_preserved (createRequest PStore.empty sampleRecord)
    (WF_of_check _ (by decide))).2.1 "a" ReqStatus.processing 5

/-- C4 counterexample: a duplicate `CreateRequest` — a store operation
from a quiescent state in which the equality holds — leaves
`count:n:queued` at 2 with a single stored record. -/
theorem C4_counterexample :
    countersMatch (createRequest PStore.empty sampleRecord)
    ∧ ¬ countersMatch (createRequest (createRequest PStore.empty sampleRecord) sampleRecord) := by
  constructor
  · exact (WF_createRequest PStore.empty sampleRecord WF_empty rfl (by decide)).countsOk
  · intro h
    have := h "n" ReqStatus.queued
    revert this
    decide

/-! ## C3 — listing order -/

theorem stKeyLe_total (a b : StKey) : stKeyLe a b ∨ stKeyLe b a := by
  unfold stKeyLe
  rcases lt_trichotomy a.ts b.ts with h | h | h
  · exact Or.inl (Or.inl h)
  · rcases le_total a.id b.id with h2 | h2
    · exact Or.inl (Or.inr ⟨h, h2⟩)
    · exact Or.inr (Or.inr ⟨h.symm, h2⟩)
  · exact Or.inr (Or.inl h)

theorem stKeyLe_trans (a b c : StKey) (h1 : stKeyLe a b) (h2 : stKeyLe b c) :
    stKeyLe a c := by
  unfold stKeyLe at h1 h2 ⊢
  rcases h1 with h1 | ⟨h1e, h1s⟩
  · rcases h2 with h2 | ⟨h2e, _⟩
    · exact Or.inl (h1.trans h2)
    · exact Or.inl (h2e ▸ h1)
  · rcases h2 with h2 | ⟨h2e, h2s⟩
    · exact Or.inl (h1e ▸ h2)
    · exact Or.inr ⟨h1e.trans h2e, le_trans h1s h2s⟩

theorem pairwise_insertKey (x : StKey) (l : List StKey) (h : l.Pairwise stKeyLe) :
    (insertKey x l).Pairwise stKeyLe := by
  induction l with
  | nil => simp [insertKey]
  | cons y ys ih =>
    rw [List.pairwise_cons] at h
    unfold insertKey
    by_cases hxy : stKeyLe x y
    · rw [if_pos hxy, List.pairwise_cons]
      constructor
      · intro z hz
        rcases List.mem_cons.mp hz with rfl | hz2
        · exact hxy
        · exact stKeyLe_trans x y z hxy (h.1 z hz2)
      · rw [List.pairwise_cons]
        exact h
    · rw [if_neg hxy, List.pairwise_cons]
      constructor
      · intro z hz
        rw [mem_insertKey] at hz
        rcases hz with heq | hz2
        · subst heq
          rcases stKeyLe_total z y with hc | hc
          · exact absurd hc hxy
          · exact hc
        · exact h.1 z hz2
      · exact ih h.2

theorem pairwise_sortKeys (l : List StKey) : (sortKeys l).Pairwise stKeyLe := by
  induction l with
  | nil => simp [sortKeys]
  | cons x xs ih =>
    unfold sortKeys
    exact pairwise_insertKey x (sortKeys xs) ih

/-- What one index-range scan of `ListRequests` contributes: it appends a
subsequence of records found through the visited keys (in key order)
and counts every visited key into `total`. -/
theorem listScan_spec (s : PStore) (cursor : Option Int) (limit : Int) :
    ∀ ks : List StKey, ks.Pairwise stKeyLe →
    (∀ k ∈ ks, ∀ e, alookup s.reqs k.id = some e → mkStKey e = k) →
    ∀ (recs : List RequestRecord) (total : Nat),
    ∃ extra, listScan s cursor limit ks (recs, total) = (recs ++ extra, total + ks.length)
      ∧ (∀ e ∈ extra, ∃ k, k ∈ ks ∧ alookup s.reqs k.id = some e ∧ mkStKey e = k)
      ∧ extra.Pairwise (fun a b => stKeyLe (mkStKey a) (mkStKey b)) := by
  intro ks
  induction ks with
  | nil =>
    intro _ _ recs total
    exact ⟨[], by simp [listScan], by simp, by simp⟩
  | cons k ks ih =>
    intro hpw hlink recs total
    rw [List.pairwise_cons] at hpw
    have hlink2 : ∀ k2 ∈ ks, ∀ e, alookup s.reqs k2.id = some e → mkStKey e = k2 :=
      fun k2 hk2 e he => hlink k2 (List.mem_cons_of_mem _ hk2) e he
    have hskipcase : ∀ h : listScan s cursor limit (k :: ks) (recs, total)
        = listScan s cursor limit ks (recs, total + 1),
        ∃ extra, listScan s cursor limit (k :: ks) (recs, total)
          = (recs ++ extra, total + (k :: ks).length)
        ∧ (∀ e ∈ extra, ∃ k2, k2 ∈ k :: ks ∧ alookup s.reqs k2.id = some e ∧ mkStKey e = k2)
        ∧ extra.Pairwise (fun a b => stKeyLe (mkStKey a) (mkStKey b)) := by
      intro h
      obtain ⟨extra, heq, hmem, hpw2⟩ := ih hpw.2 hlink2 recs (total + 1)
      refine ⟨extra, ?_, ?_, hpw2⟩
      · rw [h, heq]
        simp [Nat.add_assoc, Nat.add_comm 1]
      · intro e he
        obtain ⟨k2, hk2, hrest⟩ := hmem e he
        exact ⟨k2, List.mem_cons_of_mem _ hk2, hrest⟩
    by_cases hskip : skipByCursor cursor k = true
    · exact hskipcase (by rw [listScan, hskip]; simp)
    · by_cases hlim : (recs.length : Int) < limit
      · by_cases hid : k.id = ""
        · refine hskipcase ?_
          rw [listScan]
          rw [Bool.not_eq_true] at hskip
          rw [hskip]
          simp only [Bool.false_eq_true, if_false, if_pos hlim, if_pos hid]
        · cases halook : alookup s.reqs k.id with
          | none =>
            refine hskipcase ?_
            rw [listScan]
            rw [Bool.not_eq_true] at hskip
            rw [hskip]
            simp only [Bool.false_eq_true, if_false, if_pos hlim, if_neg hid, halook]
          | some d =>
            have hstep : listScan s cursor limit (k :: ks) (recs, total)
                = listScan s cursor limit ks (recs ++ [d], total + 1) := by
              rw [listScan]
              rw [Bool.not_eq_true] at hskip
              rw [hskip]
              simp only [Bool.false_eq_true, if_false, if_pos hlim, if_neg hid, halook]
            obtain ⟨extra, heq, hmem, hpw2⟩ := ih hpw.2 hlink2 (recs ++ [d]) (total + 1)
            refine ⟨d :: extra, ?_, ?_, ?_⟩
            · rw [hstep, heq]
              simp [Nat.add_assoc, Nat.add_comm 1]
            · intro e he
              rcases List.mem_cons.mp he with rfl | he2
              · exact ⟨k, List.mem_cons_self _ _, halook, hlink k (List.mem_cons_self _ _) e halook⟩
              · obtain ⟨k2, hk2, hrest⟩ := hmem e he2
                exact ⟨k2, List.mem_cons_of_mem _ hk2, hrest⟩
            · rw [List.pairwise_cons]
              refine ⟨?_, hpw2⟩
              intro e he
              obtain ⟨k2, hk2, _, hke⟩ := hmem e he
              rw [hlink k (List.mem_cons_self _ _) d halook, hke]
              exact hpw.1 k2 hk2
      · refine hskipcase ?_
        rw [listScan]
        rw [Bool.not_eq_true] at hskip
        rw [hskip]
        simp only [Bool.false_eq_true, if_false, if_neg hlim]

/-- The order in which pebbledb `ListRequests` actually emits records:
grouped by status in the scan order queued, processing, completed,
failed; inside a group ascending by `(created_at, id)` (the index-key
byte order). -/
def pebbleListLe (a b : RequestRecord) : Prop :=
  statusRank a.status < statusRank b.status
  ∨ (a.status = b.status ∧ stKeyLe (mkStKey a) (mkStKey b))

instance (a b : RequestRecord) : Decidable (pebbleListLe a b) := by
  unfold pebbleListLe
  infer_instance

/-- One status pass keeps the accumulated list `pebbleListLe`-sorted when
everything already accumulated ranks strictly below the pass status. -/
theorem listScan_pass (s : PStore) (hWF : WF s) (ns : String) (st : ReqStatus)
    (cursor : Option Int) (limit : Int) (acc : List RequestRecord × Nat)
    (hacc : acc.1.Pairwise pebbleListLe)
    (hbound : ∀ e ∈ acc.1, statusRank e.status < statusRank st) :
    (listScan s cursor limit (scanKeys s.stIndex ns st) acc).1.Pairwise pebbleListLe
    ∧ ∀ e ∈ (listScan s cursor limit (scanKeys s.stIndex ns st) acc).1,
        statusRank e.status ≤ statusRank st := by
  obtain ⟨recs, total⟩ := acc
  have hpw : (scanKeys s.stIndex ns st).Pairwise stKeyLe := pairwise_sortKeys _
  have hlink : ∀ k ∈ scanKeys s.stIndex ns st, ∀ e,
      alookup s.reqs k.id = some e → mkStKey e = k := by
    intro k hk e he
    exact (hWF.idxSound k ((mem_scanKeys _ _ _ k).mp hk).1 e he).symm
  obtain ⟨extra, heq, hmem, hpw2⟩ :=
    listScan_spec s cursor limit (scanKeys s.stIndex ns st) hpw hlink recs total
  rw [heq]
  have hstatus : ∀ e ∈ extra, e.status = st := by
    intro e he
    obtain ⟨k, hk, _, hke⟩ := hmem e he
    have hks := ((mem_scanKeys _ _ _ k).mp hk).2.2
    rw [← hke] at hks
    exact hks
  constructor
  · rw [List.pairwise_append]
    refine ⟨hacc, ?_, ?_⟩
    · refine List.Pairwise.imp_of_mem ?_ hpw2
      intro a b ha hb hab
      exact Or.inr ⟨(hstatus a ha).trans (hstatus b hb).symm, hab⟩
    · intro a ha b hb
      left
      rw [hstatus b hb]
      exact hbound a ha
  · intro e he
    rcases List.mem_append.mp he with h | h
    · exact le_of_lt (hbound e h)
    · rw [hstatus e h]

/-- C3 (amended): for every namespace and filter, the records pebbledb
`ListRequests` returns are grouped by status in the order queued,
processing, completed, failed, and inside each group are sorted by
`created_at` ascending, tie-broken by `id` ascending — not globally by
`created_at` descending as claimed. -/
theorem C3_listing_order (s : PStore) (hWF : WF s) (f : RequestFilter)
    (out : List RequestRecord × Nat) (h : listRequests s f = Except.ok out) :
    out.1.Pairwise pebbleListLe := by
  unfold listRequests at h
  cases hns : f.nspace with
  | none =>
    rw [hns] at h
    exact absurd h (by simp)
  | some ns =>
    rw [hns] at h
    cases hst : f.status with
    | some st =>
      rw [hst] at h
      simp only [Except.ok.injEq] at h
      subst h
      have hp := listScan_pass s hWF ns st f.cursor (if f.limit = 0 then 100 else f.limit)
        ([], 0) (by simp) (by simp)
      simpa [List.foldl] using hp.1
    | none =>
      rw [hst] at h
      simp only [Except.ok.injEq] at h
      subst h
      have h1 := listScan_pass s hWF ns .queued f.cursor (if f.limit = 0 then 100 else f.limit)
        ([], 0) (by simp) (by simp)
      have h2 := listScan_pass s hWF ns .processing f.cursor
        (if f.limit = 0 then 100 else f.limit) _ h1.1
        (fun e he => lt_of_le_of_lt (h1.2 e he) (by decide))
      have h3 := listScan_pass s hWF ns .completed f.cursor
        (if f.limit = 0 then 100 else f.limit) _ h2.1
        (fun e he => lt_of_le_of_lt (h2.2 e he) (by decide))
      have h4 := listScan_pass s hWF ns .failed f.cursor
        (if f.limit = 0 then 100 else f.limit) _ h3.1
        (fun e he => lt_of_le_of_lt (h3.2 e he) (by decide))
      simpa [statusList, List.foldl] using h4.1

/-- C3 witness: the amended ordering theorem at a one-record store. -/
theorem C3_witness :
    (([createData sampleRecord], 1) : List RequestRecord × Nat).1.Pairwise pebbleListLe :=
  C3_listing_order (createRequest PStore.empty sampleRecord) (WF_of_check _ (by decide))
    { nspace := some "n", status := none, limit := 0, cursor := none }
    ([createData sampleRecord], 1) rfl

/-- The claimed ordering: `created_at` descending between neighbours. -/
def sortedByCreatedDesc (l : List RequestRecord) : Prop :=
  l.Chain' (fun a b => b.createdAt ≤ a.createdAt)

/-- A newer but already completed request. -/
def c3RecB : RequestRecord :=
  { sampleRecord with id := "b", createdAt := 200, status := .completed }

/-- C3 counterexample: with a queued record of `created_at` 100 and a
completed record of `created_at` 200, pebbledb returns them as
`[100, 200]` — ascending, because the queued range is scanned first —
violating the claimed descending order. -/
theorem C3_counterexample :
    listRequests (createRequest (createRequest PStore.empty sampleRecord) c3RecB)
      { nspace := some "n", status := none, limit := 0, cursor := none }
      = Except.ok ([createData sampleRecord, createData c3RecB], 2)
    ∧ ¬ sortedByCreatedDesc [createData sampleRecord, createData c3RecB] := by
  refine ⟨rfl, ?_⟩
  intro hs
  unfold sortedByCreatedDesc at hs
  rw [List.chain'_cons] at hs
  have h1 := hs.1
  revert h1
  decide
